import Mathlib

/-!
Shallow embedding of `metasyn/provider.py`: the distribution resolution and
fitting-selection engine (providers, candidate gathering, automatic best-fit
selection and name/version resolution).

Python machine integers are arbitrary precision, so scores are `Int`.
Fitting of individual distributions is an external capability (each
distribution class implements its own `fit` and `information_criterion`);
it is modelled as an explicit oracle argument
`FitOracle : DistClass → Series → FitKwargs → DistInstance`.
Warnings (`warnings.warn`) never influence control flow or return values in
the source, so they are omitted from the embedding.
-/

namespace Metasyn

/-- The `var_type` class attribute of a distribution: either a single string
or a list of strings (`provider.py` lines 95-96 distinguish those two cases). -/
inductive VarTypeSpec where
  | single : String → VarTypeSpec
  | multiple : List String → VarTypeSpec
deriving DecidableEq, Repr

/-- Type-level metadata of a distribution class (`BaseDistribution` subclass):
the forms accepted by its `matches_name` classmethod, its `var_type`,
`privacy` tag and `version` string. -/
structure DistClass where
  names : List String
  var_type : VarTypeSpec
  privacy : String
  version : String
deriving DecidableEq, Repr

/-- `dist_class.matches_name(dist_name)`: the name matcher accepts one or more
string forms of the distribution's name. -/
def matchesName (d : DistClass) (dist_name : String) : Bool :=
  d.names.contains dist_name

/-- The variable-type check of `get_dist_list` (`provider.py` lines 95-97):
`str_chk` compares equal strings, `lst_chk` tests membership. -/
def varTypeMatches : VarTypeSpec → String → Bool
  | .single s, vt => vt == s
  | .multiple l, vt => l.contains vt

/-- A fitted distribution instance: its uniqueness flag, its information
criterion evaluated on the series it was fitted to, and its fitted
parameters (abstract). -/
structure DistInstance where
  is_unique : Bool
  ic : Int
  params : List Int
deriving DecidableEq, Repr

/-- A privacy object (`BasePrivacy`): a name and extra fitting options. -/
structure Privacy where
  name : String
  fit_kwargs : List (String × Int)
deriving DecidableEq, Repr

/-- A polars series: a column name and values, `none` being a missing value. -/
structure Series where
  name : String
  values : List (Option Int)
deriving DecidableEq, Repr

/-- `series.drop_nulls()` as the list of non-missing values. -/
def Series.dropNulls (s : Series) : List Int :=
  s.values.filterMap id

/-- The error kinds raised by `provider.py`, one constructor per raise site
relevant to the engine. -/
inductive MetasynError where
  /-- `assert` failure in `BaseDistributionProvider.__init__` (lines 67-69). -/
  | assertionFailed : MetasynError
  /-- "Cannot find distribution with name ..." (line 297). -/
  | notFound : MetasynError
  /-- "Cannot find compatible version for distribution ..." (line 328). -/
  | noCompatibleVersion : MetasynError
  /-- "No available distributions with variable type ..." (line 233). -/
  | noDistributionsForVarType : MetasynError
  /-- "No available distributions ... that have unique == ..." (line 249). -/
  | noUniqueMatch : MetasynError
  /-- "Got fit arguments ..., but no distribution" (line 202). -/
  | misuseFitArgs : MetasynError
deriving DecidableEq, Repr

/-- A provider (`BaseDistributionProvider`): name, version, current and
legacy distribution lists. -/
structure Provider where
  name : String
  version : String
  distributions : List DistClass
  legacy_distributions : List DistClass
deriving DecidableEq, Repr

/-- `BaseDistributionProvider.__init__` (lines 65-69): the internal
consistency check; construction succeeds only when name, version and the
current distribution list are non-empty. -/
def mkProvider (name version : String) (distributions legacy_distributions : List DistClass) :
    Except MetasynError Provider :=
  if name.length > 0 then
    if version.length > 0 then
      if distributions.length > 0 then
        .ok ⟨name, version, distributions, legacy_distributions⟩
      else .error .assertionFailed
    else .error .assertionFailed
  else .error .assertionFailed

/-- `BaseDistributionProvider.get_dist_list(var_type, use_legacy)`
(lines 71-99): pick the current or legacy list, then filter by variable
type unless `var_type` is `None`. -/
def Provider.get_dist_list (p : Provider) (var_type : Option String) (use_legacy : Bool) :
    List DistClass :=
  let distributions := if use_legacy then p.legacy_distributions else p.distributions
  match var_type with
  | none => distributions
  | some vt => distributions.filter (fun d => varTypeMatches d.var_type vt)

/-- `DistributionProviderList.get_distributions(privacy, var_type, use_legacy)`
(lines 376-402): concatenate each provider's `get_dist_list` in provider
order, then filter by the privacy tag when a privacy object is given. -/
def get_distributions (dps : List Provider) (privacy : Option Privacy)
    (var_type : Option String) (use_legacy : Bool) : List DistClass :=
  let dist_list := dps.foldl (fun acc p => acc ++ p.get_dist_list var_type use_legacy) []
  match privacy with
  | none => dist_list
  | some pr => dist_list.filter (fun d => d.privacy == pr.name)

/-- Modelled from the spec: `NADistribution` from `metasyn/distribution/na.py`
(not under `src/`), the missing-data descriptor with its recognized aliases. -/
def naDistribution : DistClass :=
  { names := ["na", "core.na", "NADistribution"]
    var_type := .multiple []
    privacy := "none"
    version := "1.0" }

/-- Modelled from the spec: `NADistribution.default_distribution()` and
`NADistribution()` from `metasyn/distribution/na.py` (not under `src/`), the
missing-data descriptor's default instance, which fits no statistical
parameters to data. -/
def naDefaultInstance : DistInstance :=
  { is_unique := false, ic := 0, params := [] }

/-- Modelled from the spec: `BasicPrivacy()` from `metasyn/privacy.py`
(not under `src/`), the default privacy level, whose tag the spec writes as
"none" with no extra fitting options. -/
def basicPrivacy : Privacy :=
  { name := "none", fit_kwargs := [] }

/-! ### Version parsing

`find_distribution` parses `"major.minor"` version strings with
`version.split(".")` and `int(...)` (lines 312, 318-321). Splitting on a dot
and decimal parsing are embedded at the character level. -/

/-- `str.split(".")` on the character list: Python splitting, where the empty
string splits to `[""]`. -/
def splitDotAux : List Char → List Char → List (List Char)
  | [], acc => [acc.reverse]
  | c :: rest, acc =>
    if c = '.' then acc.reverse :: splitDotAux rest [] else splitDotAux rest (c :: acc)

/-- `version.split(".")`. -/
def splitVersion (v : String) : List String :=
  (splitDotAux v.toList []).map (fun cs => String.mk cs)

/-- Decimal digit accumulation for `int(...)`. -/
def decToNatAux : List Char → Nat → Option Nat
  | [], acc => some acc
  | c :: rest, acc =>
    if c.isDigit then decToNatAux rest (acc * 10 + (c.toNat - 48)) else none

/-- Python `int(s)` on a non-negative decimal string; `none` when the string
is empty or holds a non-digit (where Python raises `ValueError`). -/
def decToNat? (s : String) : Option Nat :=
  if s.toList = [] then none else decToNatAux s.toList 0

/-- `int(version.split(".")[i])`, defaulting to `0` outside the domain where
the Python code would raise. -/
def parsePart (v : String) (i : Nat) : Int :=
  Int.ofNat ((decToNat? ((splitVersion v).getD i "")).getD 0)

/-- `int(version.split(".")[0])`. -/
def parseMajor (v : String) : Int := parsePart v 0

/-- `int(version.split(".")[1])`. -/
def parseMinor (v : String) : Int := parsePart v 1

/-- A version string on which the Python parsing code does not raise: at
least two dot-separated components, the first two being decimal numbers. -/
def wellFormedVersion (v : String) : Bool :=
  decide (2 ≤ (splitVersion v).length)
    && (decToNat? ((splitVersion v).getD 0 "")).isSome
    && (decToNat? ((splitVersion v).getD 1 "")).isSome

/-! ### First-occurrence argmin / argmax

`np.argmin` and `np.argmax` return the index of the first occurrence of the
extreme value (lines 236, 252, 314, 324). -/

/-- Maximum of a list of scores (`0` on the empty list, which the source
never queries). -/
def maxVal : List Int → Int
  | [] => 0
  | [x] => x
  | x :: y :: ys => max x (maxVal (y :: ys))

/-- `np.argmax`: index of the first occurrence of the maximum. -/
def argmaxIdx : List Int → Nat
  | [] => 0
  | [_] => 0
  | x :: y :: ys => if maxVal (y :: ys) ≤ x then 0 else argmaxIdx (y :: ys) + 1

/-- Minimum of a list of scores (`0` on the empty list, which the source
never queries). -/
def minVal : List Int → Int
  | [] => 0
  | [x] => x
  | x :: y :: ys => min x (minVal (y :: ys))

/-- `np.argmin`: index of the first occurrence of the minimum. -/
def argminIdx : List Int → Nat
  | [] => 0
  | [_] => 0
  | x :: y :: ys => if x ≤ minVal (y :: ys) then 0 else argminIdx (y :: ys) + 1

/-! ### Name/version resolution -/

/-- The per-candidate version test of the current-candidate scan
(line 285): `version is None or version == dist_class.version`. -/
def versionOk (version : Option String) (d : DistClass) : Bool :=
  match version with
  | none => true
  | some v => v == d.version

/-- The `for` loop of `find_distribution` (lines 283-287): return the first
name-matching candidate whose version is acceptable (`Sum.inl`), otherwise
accumulate the name-matching but wrong-version candidates as
`versions_found` (`Sum.inr`). -/
def findCurrentLoop (dist_name : String) (version : Option String) :
    List DistClass → Sum DistClass (List DistClass)
  | [] => .inr []
  | d :: rest =>
    if matchesName d dist_name then
      if versionOk version d then .inl d
      else
        match findCurrentLoop dist_name version rest with
        | .inl c => .inl c
        | .inr vs => .inr (d :: vs)
    else findCurrentLoop dist_name version rest

/-- The version-compatibility score of line 322:
`int(ver[0] == major_version)*1000000 - (ver[1] - minor_version)**2`. -/
def versionScore (v : String) (d : DistClass) : Int :=
  (if parseMajor d.version = parseMajor v then (1000000 : Int) else 0)
    - (parseMinor d.version - parseMinor v) ^ 2

/-- The latest-legacy score of lines 312-313:
`int(version.split(".")[0])*100 + int(version.split(".")[1])`. -/
def legacyScore (d : DistClass) : Int :=
  parseMajor d.version * 100 + parseMinor d.version

/-- `DistributionProviderList.find_distribution` (lines 254-333): resolve a
distribution class from a name, privacy level, optional variable type and
optional version, falling back through legacy candidates. -/
def find_distribution (dps : List Provider) (dist_name : String)
    (privacy : Privacy) (var_type : Option String) (version : Option String) :
    Except MetasynError DistClass :=
  if matchesName naDistribution dist_name then .ok naDistribution
  else
    match findCurrentLoop dist_name version
        (get_distributions dps (some privacy) var_type false ++ [naDistribution]) with
    | .inl c => .ok c
    | .inr versions_found =>
      let legacy_distribs := (get_distributions dps (some privacy) var_type true).filter
        (fun d => matchesName d dist_name)
      if legacy_distribs.length + versions_found.length = 0 then .error .notFound
      else
        let legacy_versions := legacy_distribs.map (fun d => d.version)
        match version with
        | some v =>
          if legacy_versions.contains v then
            .ok (legacy_distribs.getD (legacy_versions.indexOf v) naDistribution)
          else
            let all_dist := versions_found ++ legacy_distribs
            let score := all_dist.map (versionScore v)
            let i_max := argmaxIdx score
            if score.getD i_max 0 < 500000 then .error .noCompatibleVersion
            else .ok (all_dist.getD i_max naDistribution)
        | none =>
          let scores := legacy_distribs.map legacyScore
          .ok (legacy_distribs.getD (argmaxIdx scores) naDistribution)

/-! ### Fitting dispatch -/

/-- Extra fitting options (`fit_kwargs`); only emptiness and identity of the
mapping matter to the engine. -/
abbrev FitKwargs := List (String × Int)

/-- The external fitting capability:
`dist_class.fit(series, **kwargs) -> instance`, together with the fitted
instance's `information_criterion(series)` evaluated on that same series. -/
abbrev FitOracle := DistClass → Series → FitKwargs → DistInstance

/-- The `dist` argument of `fit`: a name string, a distribution class, or an
already fitted instance (`Union[str, type, BaseDistribution]`). -/
inductive DistArg where
  | byName : String → DistArg
  | byClass : DistClass → DistArg
  | byInstance : DistInstance → DistArg
deriving DecidableEq, Repr

/-- `DistributionProviderList._fit_distribution` (lines 335-374): an already
fitted instance is returned unchanged; a name is resolved via
`find_distribution`; the missing-data class is instantiated through
`default_distribution()`; anything else is fitted with the privacy fitting
options merged with the caller's `fit_kwargs`. -/
def fit_distribution (dps : List Provider) (oracle : FitOracle) (series : Series)
    (dist : DistArg) (privacy : Privacy) (fit_kwargs : FitKwargs) :
    Except MetasynError DistInstance :=
  match dist with
  | .byInstance d => .ok d
  | .byName s =>
    match find_distribution dps s privacy none none with
    | .error e => .error e
    | .ok dist_class =>
      if dist_class = naDistribution then .ok naDefaultInstance
      else .ok (oracle dist_class series (privacy.fit_kwargs ++ fit_kwargs))
  | .byClass dist_class =>
    if dist_class = naDistribution then .ok naDefaultInstance
    else .ok (oracle dist_class series (privacy.fit_kwargs ++ fit_kwargs))

/-- `DistributionProviderList._find_best_fit` (lines 206-252): return the
missing-data instance when the series has no non-missing value; otherwise fit
every eligible candidate, default the uniqueness preference to `false`, keep
the instances whose `is_unique` equals it and return the one with the least
information criterion (first index on ties, as `np.argmin`). The uniqueness
warning of lines 237-241 has no effect on the result and is omitted. -/
def find_best_fit (dps : List Provider) (oracle : FitOracle) (series : Series)
    (var_type : String) (unique : Option Bool) (privacy : Privacy) :
    Except MetasynError DistInstance :=
  if series.dropNulls.length = 0 then .ok naDefaultInstance
  else
    let dist_list := get_distributions dps (some privacy) (some var_type) false
    if dist_list.length = 0 then .error .noDistributionsForVarType
    else
      let dist_instances := dist_list.map (fun d => oracle d series privacy.fit_kwargs)
      let u := unique.getD false
      let kept := dist_instances.filter (fun d => d.is_unique == u)
      if kept.length = 0 then .error .noUniqueMatch
      else .ok (kept.getD (argminIdx (kept.map (fun d => d.ic))) naDefaultInstance)

/-- `DistributionProviderList.fit` (lines 171-204): dispatch on whether a
distribution was supplied; reject fit arguments given without one. -/
def fit (dps : List Provider) (oracle : FitOracle) (series : Series)
    (var_type : String) (dist : Option DistArg) (privacy : Privacy)
    (unique : Option Bool) (fit_kwargs : Option FitKwargs) :
    Except MetasynError DistInstance :=
  let fk := fit_kwargs.getD []
  match dist with
  | some d => fit_distribution dps oracle series d privacy fk
  | none =>
    if fk.length > 0 then .error .misuseFitArgs
    else find_best_fit dps oracle series var_type unique privacy

/-- A serialized variable record (`var_dict`): its `type`, the distribution
record's `implements` name, and its optional `version` entry. -/
structure VarDict where
  var_type : String
  implements : String
  version : Option String
deriving DecidableEq, Repr

/-- `DistributionProviderList.from_dict` (lines 404-421): resolve the
descriptor class for the record's name, defaulted version `"1.0"` and
variable type, under the call's default privacy `BasicPrivacy()`. The final
delegation to the class's own `from_dict` reconstruction is external to the
engine; the resolved class is returned. -/
def from_dict (dps : List Provider) (vd : VarDict) : Except MetasynError DistClass :=
  find_distribution dps vd.implements basicPrivacy (some vd.var_type)
    (some (vd.version.getD "1.0"))

/-! ### Helper lemmas about lists and the argmin/argmax functions -/

theorem getD_map_of_lt {α β : Type} (f : α → β) (d : α) (b : β) :
    ∀ (l : List α) (i : Nat), i < l.length → (l.map f).getD i b = f (l.getD i d) := by
  intro l
  induction l with
  | nil => intro i h; simp at h
  | cons a t ih =>
    intro i h
    cases i with
    | zero => rfl
    | succ j =>
      simp only [List.map_cons, List.getD_cons_succ]
      exact ih j (Nat.lt_of_succ_lt_succ (by simpa using h))

theorem getD_mem_of_lt {α : Type} (d : α) :
    ∀ (l : List α) (i : Nat), i < l.length → l.getD i d ∈ l := by
  intro l
  induction l with
  | nil => intro i h; simp at h
  | cons a t ih =>
    intro i h
    cases i with
    | zero => simp
    | succ j =>
      simp only [List.getD_cons_succ]
      exact List.mem_cons_of_mem a (ih j (Nat.lt_of_succ_lt_succ (by simpa using h)))

theorem le_maxVal : ∀ {l : List Int} {x : Int}, x ∈ l → x ≤ maxVal l := by
  intro l
  induction l with
  | nil => intro x hx; cases hx
  | cons a t ih =>
    intro x hx
    cases t with
    | nil =>
      rcases List.mem_cons.mp hx with rfl | h
      · simp [maxVal]
      · cases h
    | cons b u =>
      rcases List.mem_cons.mp hx with rfl | h
      · exact le_max_left _ _
      · exact le_trans (ih h) (le_max_right _ _)

theorem argmaxIdx_lt : ∀ {l : List Int}, l ≠ [] → argmaxIdx l < l.length := by
  intro l
  induction l with
  | nil => intro h; exact absurd rfl h
  | cons a t ih =>
    intro _
    cases t with
    | nil => simp [argmaxIdx]
    | cons b u =>
      by_cases hc : maxVal (b :: u) ≤ a
      · simp [argmaxIdx, hc]
      · simp only [argmaxIdx, if_neg hc, List.length_cons]
        exact Nat.succ_lt_succ (ih (by simp))

theorem getD_argmaxIdx : ∀ {l : List Int}, l ≠ [] → l.getD (argmaxIdx l) 0 = maxVal l := by
  intro l
  induction l with
  | nil => intro h; exact absurd rfl h
  | cons a t ih =>
    intro _
    cases t with
    | nil => simp [argmaxIdx, maxVal]
    | cons b u =>
      by_cases hc : maxVal (b :: u) ≤ a
      · simp [argmaxIdx, hc, maxVal, max_eq_left hc]
      · have h2 := ih (by simp)
        simp only [argmaxIdx, if_neg hc, List.getD_cons_succ, maxVal]
        rw [h2, max_eq_right (le_of_lt (lt_of_not_le hc))]

theorem minVal_le : ∀ {l : List Int} {x : Int}, x ∈ l → minVal l ≤ x := by
  intro l
  induction l with
  | nil => intro x hx; cases hx
  | cons a t ih =>
    intro x hx
    cases t with
    | nil =>
      rcases List.mem_cons.mp hx with rfl | h
      · simp [minVal]
      · cases h
    | cons b u =>
      rcases List.mem_cons.mp hx with rfl | h
      · exact min_le_left _ _
      · exact le_trans (min_le_right _ _) (ih h)

theorem argminIdx_lt : ∀ {l : List Int}, l ≠ [] → argminIdx l < l.length := by
  intro l
  induction l with
  | nil => intro h; exact absurd rfl h
  | cons a t ih =>
    intro _
    cases t with
    | nil => simp [argminIdx]
    | cons b u =>
      by_cases hc : a ≤ minVal (b :: u)
      · simp [argminIdx, hc]
      · simp only [argminIdx, if_neg hc, List.length_cons]
        exact Nat.succ_lt_succ (ih (by simp))

theorem getD_argminIdx : ∀ {l : List Int}, l ≠ [] → l.getD (argminIdx l) 0 = minVal l := by
  intro l
  induction l with
  | nil => intro h; exact absurd rfl h
  | cons a t ih =>
    intro _
    cases t with
    | nil => simp [argminIdx, minVal]
    | cons b u =>
      by_cases hc : a ≤ minVal (b :: u)
      · simp [argminIdx, hc, minVal, min_eq_left hc]
      · have h2 := ih (by simp)
        simp only [argminIdx, if_neg hc, List.getD_cons_succ, minVal]
        rw [h2, min_eq_right (le_of_lt (lt_of_not_le hc))]

theorem argminIdx_first : ∀ {l : List Int} {j : Nat}, j < argminIdx l →
    minVal l < l.getD j 0 := by
  intro l
  induction l with
  | nil => intro j h; simp [argminIdx] at h
  | cons a t ih =>
    intro j h
    cases t with
    | nil => simp [argminIdx] at h
    | cons b u =>
      by_cases hc : a ≤ minVal (b :: u)
      · simp [argminIdx, hc] at h
      · simp only [argminIdx, if_neg hc] at h
        cases j with
        | zero =>
          simp only [List.getD_cons_zero, minVal]
          rw [min_eq_right (le_of_lt (lt_of_not_le hc))]
          exact lt_of_not_le hc
        | succ k =>
          simp only [List.getD_cons_succ, minVal]
          rw [min_eq_right (le_of_lt (lt_of_not_le hc))]
          exact ih (Nat.lt_of_succ_lt_succ h)

/-! ### Helper lemmas about the scan loop and candidate gathering -/

theorem findCurrentLoop_none (dist_name : String) :
    ∀ l : List DistClass,
      findCurrentLoop dist_name none l =
        (match l.filter (fun d => matchesName d dist_name) with
          | [] => Sum.inr []
          | d :: _ => Sum.inl d) := by
  intro l
  induction l with
  | nil => rfl
  | cons a t ih =>
    by_cases hm : matchesName a dist_name
    · simp [findCurrentLoop, hm, versionOk, List.filter_cons]
    · simp only [findCurrentLoop, hm]
      rw [ih]
      simp [List.filter_cons, hm]

theorem findCurrentLoop_no_exact (dist_name v : String) :
    ∀ l : List DistClass,
      (∀ d ∈ l, matchesName d dist_name = true → d.version ≠ v) →
      findCurrentLoop dist_name (some v) l =
        Sum.inr (l.filter (fun d => matchesName d dist_name)) := by
  intro l
  induction l with
  | nil => intro _; rfl
  | cons a t ih =>
    intro h
    by_cases hm : matchesName a dist_name
    · have hv : (v == a.version) = false := by
        simpa using Ne.symm (h a (List.mem_cons_self a t) hm)
      simp only [findCurrentLoop, hm, if_true, versionOk, hv]
      rw [ih (fun d hd => h d (List.mem_cons_of_mem a hd))]
      simp [List.filter_cons, hm]
    · simp only [findCurrentLoop, hm]
      rw [ih (fun d hd => h d (List.mem_cons_of_mem a hd))]
      simp [List.filter_cons, hm]

theorem foldl_append_bind {α β : Type} (f : α → List β) :
    ∀ (l : List α) (init : List β),
      l.foldl (fun acc p => acc ++ f p) init = init ++ l.flatMap f := by
  intro l
  induction l with
  | nil => intro init; simp
  | cons a t ih =>
    intro init
    simp only [List.foldl_cons, List.flatMap_cons]
    rw [ih, List.append_assoc]

theorem get_distributions_no_privacy (dps : List Provider) (var_type : Option String)
    (use_legacy : Bool) :
    get_distributions dps none var_type use_legacy =
      dps.flatMap (fun p => p.get_dist_list var_type use_legacy) := by
  simp [get_distributions, foldl_append_bind]

theorem get_distributions_privacy (dps : List Provider) (pr : Privacy)
    (var_type : Option String) (use_legacy : Bool) :
    get_distributions dps (some pr) var_type use_legacy =
      (dps.flatMap (fun p => p.get_dist_list var_type use_legacy)).filter
        (fun d => d.privacy == pr.name) := by
  simp [get_distributions, foldl_append_bind]

theorem mem_get_distributions_privacy {dps : List Provider} {pr : Privacy}
    {var_type : Option String} {use_legacy : Bool} {d : DistClass}
    (h : d ∈ get_distributions dps (some pr) var_type use_legacy) :
    d.privacy = pr.name ∧ d ∈ get_distributions dps none var_type use_legacy := by
  rw [get_distributions_privacy] at h
  have h2 := List.mem_filter.mp h
  refine ⟨by simpa using h2.2, ?_⟩
  rw [get_distributions_no_privacy]
  exact h2.1

theorem contains_eq_false_of_forall_ne {l : List String} {v : String}
    (h : ∀ x ∈ l, x ≠ v) : l.contains v = false := by
  have hv : v ∉ l := fun hm => (h v hm) rfl
  simp [List.contains, List.elem_eq_mem, hv]

/-- The current eligible candidates whose name matcher accepts `dist_name`
(the candidates that populate `versions_found` when their version differs
from the requested one). -/
def currentMatches (dps : List Provider) (privacy : Privacy)
    (var_type : Option String) (dist_name : String) : List DistClass :=
  (get_distributions dps (some privacy) var_type false).filter
    (fun d => matchesName d dist_name)

/-- The legacy candidates whose name matcher accepts `dist_name`
(`legacy_distribs`, lines 291-294). -/
def legacyMatches (dps : List Provider) (privacy : Privacy)
    (var_type : Option String) (dist_name : String) : List DistClass :=
  (get_distributions dps (some privacy) var_type true).filter
    (fun d => matchesName d dist_name)

/-- Reduction of `find_distribution` with an explicit version when no current
candidate matches the name at that exact version and no legacy candidate has
that exact version: the engine reaches the compatibility-scoring stage over
the current wrong-version matches followed by the legacy matches. -/
theorem find_distribution_some_reduce (dps : List Provider) (dist_name v : String)
    (privacy : Privacy) (var_type : Option String)
    (h_na : matchesName naDistribution dist_name = false)
    (h_noCur : ∀ d ∈ get_distributions dps (some privacy) var_type false,
      matchesName d dist_name = true → d.version ≠ v)
    (h_noLeg : ∀ d ∈ legacyMatches dps privacy var_type dist_name, d.version ≠ v) :
    find_distribution dps dist_name privacy var_type (some v) =
      (if (legacyMatches dps privacy var_type dist_name).length
          + (currentMatches dps privacy var_type dist_name).length = 0 then
        .error .notFound
      else
        let all_dist := currentMatches dps privacy var_type dist_name
          ++ legacyMatches dps privacy var_type dist_name
        let score := all_dist.map (versionScore v)
        let i_max := argmaxIdx score
        if score.getD i_max 0 < 500000 then .error .noCompatibleVersion
        else .ok (all_dist.getD i_max naDistribution)) := by
  have hloop := findCurrentLoop_no_exact dist_name v
    (get_distributions dps (some privacy) var_type false ++ [naDistribution])
    (by
      intro d hd hm
      rcases List.mem_append.mp hd with h1 | h1
      · exact h_noCur d h1 hm
      · have hd2 : d = naDistribution := by simpa using h1
        rw [hd2, h_na] at hm
        cases hm)
  have hfilter : (get_distributions dps (some privacy) var_type false
      ++ [naDistribution]).filter (fun d => matchesName d dist_name)
      = currentMatches dps privacy var_type dist_name := by
    rw [List.filter_append]
    simp [currentMatches, List.filter_cons, h_na]
  have hcontains : ((legacyMatches dps privacy var_type dist_name).map
      (fun d => d.version)).contains v = false := by
    apply contains_eq_false_of_forall_ne
    intro x hx
    rcases List.mem_map.mp hx with ⟨d, hd, rfl⟩
    exact h_noLeg d hd
  rw [hfilter] at hloop
  simp only [legacyMatches] at hcontains
  simp only [find_distribution, h_na, Bool.false_eq_true, if_false, hloop]
  simp only [legacyMatches, hcontains, Bool.false_eq_true, if_false]

/-! ### Claim C1 -/

/-- C1: when `find_distribution` is called with an explicit version, no
current candidate matches the name at that exact version and no legacy
candidate has exactly the requested version, the engine scores every
remaining candidate (current wrong-version matches followed by legacy
matches) as `1000000` if its major version equals the requested major, minus
the squared difference of minor versions; it fails with the
version-incompatible error exactly when the maximum of these scores is below
`500000`, and otherwise returns a candidate attaining that maximum score. -/
theorem find_distribution_version_compatibility
    (dps : List Provider) (dist_name v : String) (privacy : Privacy)
    (var_type : Option String)
    (h_na : matchesName naDistribution dist_name = false)
    (h_noCur : ∀ d ∈ get_distributions dps (some privacy) var_type false,
      matchesName d dist_name = true → d.version ≠ v)
    (h_noLeg : ∀ d ∈ legacyMatches dps privacy var_type dist_name, d.version ≠ v)
    (h_ne : currentMatches dps privacy var_type dist_name
      ++ legacyMatches dps privacy var_type dist_name ≠ [])
    (h_wf : wellFormedVersion v = true ∧
      ∀ d ∈ currentMatches dps privacy var_type dist_name
        ++ legacyMatches dps privacy var_type dist_name,
        wellFormedVersion d.version = true) :
    ((find_distribution dps dist_name privacy var_type (some v)
        = .error .noCompatibleVersion)
      ↔ maxVal ((currentMatches dps privacy var_type dist_name
          ++ legacyMatches dps privacy var_type dist_name).map
            (fun d => (if parseMajor d.version = parseMajor v then (1000000 : Int) else 0)
              - (parseMinor d.version - parseMinor v) ^ 2)) < 500000)
    ∧ (¬ maxVal ((currentMatches dps privacy var_type dist_name
          ++ legacyMatches dps privacy var_type dist_name).map
            (fun d => (if parseMajor d.version = parseMajor v then (1000000 : Int) else 0)
              - (parseMinor d.version - parseMinor v) ^ 2)) < 500000 →
        ∃ i, i < (currentMatches dps privacy var_type dist_name
            ++ legacyMatches dps privacy var_type dist_name).length ∧
          find_distribution dps dist_name privacy var_type (some v)
            = .ok ((currentMatches dps privacy var_type dist_name
              ++ legacyMatches dps privacy var_type dist_name).getD i naDistribution) ∧
          versionScore v ((currentMatches dps privacy var_type dist_name
              ++ legacyMatches dps privacy var_type dist_name).getD i naDistribution)
            = maxVal ((currentMatches dps privacy var_type dist_name
              ++ legacyMatches dps privacy var_type dist_name).map (versionScore v))) := by
  clear h_wf
  have hred := find_distribution_some_reduce dps dist_name v privacy var_type
    h_na h_noCur h_noLeg
  have hformula : (fun d : DistClass =>
      (if parseMajor d.version = parseMajor v then (1000000 : Int) else 0)
        - (parseMinor d.version - parseMinor v) ^ 2) = versionScore v := rfl
  rw [hformula]
  set all := currentMatches dps privacy var_type dist_name
    ++ legacyMatches dps privacy var_type dist_name with hall
  have hlen : ¬ ((legacyMatches dps privacy var_type dist_name).length
      + (currentMatches dps privacy var_type dist_name).length = 0) := by
    intro hz
    apply h_ne
    have : all.length = 0 := by
      rw [hall, List.length_append]
      omega
    exact List.length_eq_zero.mp this
  rw [if_neg hlen] at hred
  have hscore_ne : all.map (versionScore v) ≠ [] := by
    intro hz
    exact h_ne (List.map_eq_nil_iff.mp hz)
  have hgetd := getD_argmaxIdx hscore_ne
  by_cases hlt : maxVal (all.map (versionScore v)) < 500000
  · have hcond : (all.map (versionScore v)).getD
        (argmaxIdx (all.map (versionScore v))) 0 < 500000 := by rw [hgetd]; exact hlt
    rw [if_pos hcond] at hred
    exact ⟨by simp [hred, hlt], fun hc => absurd hlt hc⟩
  · have hcond : ¬ ((all.map (versionScore v)).getD
        (argmaxIdx (all.map (versionScore v))) 0 < 500000) := by rw [hgetd]; exact hlt
    rw [if_neg hcond] at hred
    constructor
    · constructor
      · intro hc
        rw [hred] at hc
        cases hc
      · intro hc
        exact absurd hc hlt
    · intro _
      refine ⟨argmaxIdx (all.map (versionScore v)), ?_, hred, ?_⟩
      · have := argmaxIdx_lt hscore_ne
        simpa using this
      · have hi : argmaxIdx (all.map (versionScore v)) < all.length := by
          have := argmaxIdx_lt hscore_ne
          simpa using this
        rw [← getD_map_of_lt (versionScore v) naDistribution 0 all _ hi]
        exact hgetd

/-- Witness for C1: with one current provider offering `"uniform"` only at
version `1.0`, requesting version `2.5` fails with the version-incompatible
error (every score is below `500000` because no candidate shares major `2`). -/
theorem find_distribution_version_compatibility_witness :
    find_distribution [⟨"builtin", "1.1",
        [⟨["uniform"], .single "continuous", "none", "1.0"⟩], []⟩]
      "uniform" basicPrivacy none (some "2.5") = .error .noCompatibleVersion :=
  ((find_distribution_version_compatibility
      [⟨"builtin", "1.1", [⟨["uniform"], .single "continuous", "none", "1.0"⟩], []⟩]
      "uniform" "2.5" basicPrivacy none
      (by decide) (by decide) (by decide) (by decide) (by decide)).1).mpr (by decide)

/-! ### Claim C4 -/

/-- C4: with the version unset, the first current (non-legacy) eligible
candidate whose name matcher accepts the requested name is returned
immediately, in preference to any legacy candidate; and when no current
candidate matches the name but at least one legacy candidate does, a legacy
candidate attaining the highest `major*100 + minor` version score is
returned. -/
theorem find_distribution_version_unset
    (dps : List Provider) (dist_name : String) (privacy : Privacy)
    (var_type : Option String)
    (h_na : matchesName naDistribution dist_name = false) :
    (∀ (c : DistClass) (cs : List DistClass),
      currentMatches dps privacy var_type dist_name = c :: cs →
      find_distribution dps dist_name privacy var_type none = .ok c)
    ∧ (currentMatches dps privacy var_type dist_name = [] →
       legacyMatches dps privacy var_type dist_name ≠ [] →
       (∀ d ∈ legacyMatches dps privacy var_type dist_name,
         wellFormedVersion d.version = true) →
       ∃ i, i < (legacyMatches dps privacy var_type dist_name).length ∧
         find_distribution dps dist_name privacy var_type none
           = .ok ((legacyMatches dps privacy var_type dist_name).getD i naDistribution) ∧
         parseMajor ((legacyMatches dps privacy var_type dist_name).getD
             i naDistribution).version * 100
           + parseMinor ((legacyMatches dps privacy var_type dist_name).getD
             i naDistribution).version
           = maxVal ((legacyMatches dps privacy var_type dist_name).map
             (fun d => parseMajor d.version * 100 + parseMinor d.version))) := by
  have hloop := findCurrentLoop_none dist_name
    (get_distributions dps (some privacy) var_type false ++ [naDistribution])
  have hfilter : (get_distributions dps (some privacy) var_type false
      ++ [naDistribution]).filter (fun d => matchesName d dist_name)
      = currentMatches dps privacy var_type dist_name := by
    rw [List.filter_append]
    simp [currentMatches, List.filter_cons, h_na]
  rw [hfilter] at hloop
  constructor
  · intro c cs hcur
    rw [hcur] at hloop
    simp only [find_distribution, h_na, Bool.false_eq_true, if_false, hloop]
  · intro hcur hleg _
    rw [hcur] at hloop
    have hloop2 : findCurrentLoop dist_name none
        (get_distributions dps (some privacy) var_type false ++ [naDistribution])
        = Sum.inr [] := hloop
    have hscore_ne : (legacyMatches dps privacy var_type dist_name).map legacyScore
        ≠ [] := by
      intro hz
      exact hleg (List.map_eq_nil_iff.mp hz)
    have hi : argmaxIdx ((legacyMatches dps privacy var_type dist_name).map legacyScore)
        < (legacyMatches dps privacy var_type dist_name).length := by
      have := argmaxIdx_lt hscore_ne
      simpa using this
    refine ⟨argmaxIdx ((legacyMatches dps privacy var_type dist_name).map legacyScore),
      hi, ?_, ?_⟩
    · simp only [find_distribution, h_na, Bool.false_eq_true, if_false, hloop2]
      rw [if_neg ?hc]
      case hc =>
        simp only [List.length_nil, Nat.add_zero]
        intro hz
        exact hleg (by simpa [legacyMatches] using List.length_eq_zero.mp hz)
      rfl
    · show legacyScore ((legacyMatches dps privacy var_type dist_name).getD
          (argmaxIdx ((legacyMatches dps privacy var_type dist_name).map legacyScore))
          naDistribution)
        = maxVal ((legacyMatches dps privacy var_type dist_name).map legacyScore)
      rw [← getD_map_of_lt legacyScore naDistribution 0 _ _ hi]
      exact getD_argmaxIdx hscore_ne

/-- Witness for C4: with only the current `"uniform"` distribution registered,
`find_distribution` with version unset returns that current descriptor, not a
legacy one. -/
theorem find_distribution_version_unset_witness :
    find_distribution [⟨"builtin", "1.1",
        [⟨["uniform"], .single "continuous", "none", "1.0"⟩],
        [⟨["uniform"], .single "continuous", "none", "0.9"⟩]⟩]
      "uniform" basicPrivacy none none
      = .ok ⟨["uniform"], .single "continuous", "none", "1.0"⟩ :=
  (find_distribution_version_unset
      [⟨"builtin", "1.1",
        [⟨["uniform"], .single "continuous", "none", "1.0"⟩],
        [⟨["uniform"], .single "continuous", "none", "0.9"⟩]⟩]
      "uniform" basicPrivacy none (by decide)).1
    ⟨["uniform"], .single "continuous", "none", "1.0"⟩ [] (by decide)

/-! ### Claim C2 -/

/-- The fitted candidate instances of `_find_best_fit` (line 234), in
provider-then-list iteration order. -/
def fittedInstances (dps : List Provider) (oracle : FitOracle) (series : Series)
    (var_type : String) (privacy : Privacy) : List DistInstance :=
  (get_distributions dps (some privacy) (some var_type) false).map
    (fun d => oracle d series privacy.fit_kwargs)

/-- The fitted instances whose `is_unique` equals the (possibly defaulted)
requested uniqueness (lines 245-247). -/
def keptInstances (dps : List Provider) (oracle : FitOracle) (series : Series)
    (var_type : String) (privacy : Privacy) (u : Bool) : List DistInstance :=
  (fittedInstances dps oracle series var_type privacy).filter
    (fun d => d.is_unique == u)

/-- C2: on a series with at least one non-missing value and a non-empty
eligible candidate pool, `fit` with `dist` omitted fails with the
no-matching-uniqueness error when no fitted instance's `is_unique` equals the
requested uniqueness (defaulted to `false` when unset); otherwise it returns
the matching instance of least information criterion, ties resolving to the
first such instance in provider-then-list iteration order. -/
theorem fit_auto_best_fit_selection
    (dps : List Provider) (oracle : FitOracle) (series : Series)
    (var_type : String) (privacy : Privacy) (unique : Option Bool)
    (h_vals : series.dropNulls.length ≠ 0)
    (h_pool : get_distributions dps (some privacy) (some var_type) false ≠ []) :
    (keptInstances dps oracle series var_type privacy (unique.getD false) = [] →
      fit dps oracle series var_type none privacy unique none
        = .error .noUniqueMatch)
    ∧ (keptInstances dps oracle series var_type privacy (unique.getD false) ≠ [] →
      ∃ i, i < (keptInstances dps oracle series var_type privacy
          (unique.getD false)).length ∧
        fit dps oracle series var_type none privacy unique none
          = .ok ((keptInstances dps oracle series var_type privacy
            (unique.getD false)).getD i naDefaultInstance) ∧
        ((keptInstances dps oracle series var_type privacy
            (unique.getD false)).getD i naDefaultInstance).is_unique
          = unique.getD false ∧
        (∀ d ∈ keptInstances dps oracle series var_type privacy (unique.getD false),
          ((keptInstances dps oracle series var_type privacy
            (unique.getD false)).getD i naDefaultInstance).ic ≤ d.ic) ∧
        (∀ j, j < i →
          ((keptInstances dps oracle series var_type privacy
              (unique.getD false)).getD i naDefaultInstance).ic
            < ((keptInstances dps oracle series var_type privacy
              (unique.getD false)).getD j naDefaultInstance).ic)) := by
  have h_vals2 : ¬ (series.dropNulls.length = 0) := h_vals
  have h_pool2 : ¬ ((get_distributions dps (some privacy) (some var_type) false).length
      = 0) := fun hz => h_pool (List.length_eq_zero.mp hz)
  constructor
  · intro hk
    show find_best_fit dps oracle series var_type unique privacy
      = .error .noUniqueMatch
    simp only [keptInstances, fittedInstances] at hk
    simp only [find_best_fit]
    rw [if_neg h_vals2, if_neg h_pool2, hk]
    simp
  · intro hne
    have hkmap : (keptInstances dps oracle series var_type privacy
        (unique.getD false)).map (fun d => d.ic) ≠ [] := by
      intro hz
      exact hne (List.map_eq_nil_iff.mp hz)
    have hi : argminIdx ((keptInstances dps oracle series var_type privacy
          (unique.getD false)).map (fun d => d.ic))
        < (keptInstances dps oracle series var_type privacy
          (unique.getD false)).length := by
      have := argminIdx_lt hkmap
      simpa using this
    have hlen2 : ¬ ((keptInstances dps oracle series var_type privacy
        (unique.getD false)).length = 0) :=
      fun hz => hne (List.length_eq_zero.mp hz)
    have hmin : ((keptInstances dps oracle series var_type privacy
          (unique.getD false)).getD (argminIdx ((keptInstances dps oracle series
          var_type privacy (unique.getD false)).map (fun d => d.ic)))
          naDefaultInstance).ic
        = minVal ((keptInstances dps oracle series var_type privacy
          (unique.getD false)).map (fun d => d.ic)) := by
      rw [← getD_map_of_lt (fun d => d.ic) naDefaultInstance 0 _ _ hi]
      exact getD_argminIdx hkmap
    refine ⟨argminIdx ((keptInstances dps oracle series var_type privacy
      (unique.getD false)).map (fun d => d.ic)), hi, ?_, ?_, ?_, ?_⟩
    · show find_best_fit dps oracle series var_type unique privacy = _
      simp only [find_best_fit]
      rw [if_neg h_vals2, if_neg h_pool2]
      rw [if_neg ?hc]
      case hc =>
        simpa [keptInstances, fittedInstances] using hlen2
      rfl
    · have hmem := getD_mem_of_lt naDefaultInstance
        (keptInstances dps oracle series var_type privacy (unique.getD false)) _ hi
      simp only [keptInstances] at hmem
      have hfl := (List.mem_filter.mp hmem).2
      simpa [keptInstances] using hfl
    · intro d hd
      have hdic : d.ic ∈ (keptInstances dps oracle series var_type privacy
          (unique.getD false)).map (fun d => d.ic) :=
        List.mem_map_of_mem _ hd
      rw [hmin]
      exact minVal_le hdic
    · intro j hj
      have hjlt : j < (keptInstances dps oracle series var_type privacy
          (unique.getD false)).length := lt_trans hj hi
      have h3 := argminIdx_first hj
      rw [getD_map_of_lt (fun d => d.ic) naDefaultInstance 0 _ _ hjlt] at h3
      rw [hmin]
      exact h3

/-- Witness for C2: two non-unique discrete candidates with criteria `10`
and `3`; automatic selection returns the second (criterion `3`) instance. -/
theorem fit_auto_best_fit_selection_witness :
    ∃ i, i < (keptInstances
        [⟨"builtin", "1.1", [⟨["normal"], .single "discrete", "none", "1.0"⟩,
          ⟨["poisson"], .single "discrete", "none", "1.0"⟩], []⟩]
        (fun d _ _ => if d.names.contains "normal" then ⟨false, 10, [1]⟩
          else if d.names.contains "poisson" then ⟨false, 3, [2]⟩
          else ⟨true, 0, []⟩)
        ⟨"x", [some 1, some 2, some 3]⟩ "discrete" basicPrivacy false).length ∧
      fit [⟨"builtin", "1.1", [⟨["normal"], .single "discrete", "none", "1.0"⟩,
          ⟨["poisson"], .single "discrete", "none", "1.0"⟩], []⟩]
        (fun d _ _ => if d.names.contains "normal" then ⟨false, 10, [1]⟩
          else if d.names.contains "poisson" then ⟨false, 3, [2]⟩
          else ⟨true, 0, []⟩)
        ⟨"x", [some 1, some 2, some 3]⟩ "discrete" none basicPrivacy
        (some false) none
        = .ok ((keptInstances
          [⟨"builtin", "1.1", [⟨["normal"], .single "discrete", "none", "1.0"⟩,
            ⟨["poisson"], .single "discrete", "none", "1.0"⟩], []⟩]
          (fun d _ _ => if d.names.contains "normal" then ⟨false, 10, [1]⟩
            else if d.names.contains "poisson" then ⟨false, 3, [2]⟩
            else ⟨true, 0, []⟩)
          ⟨"x", [some 1, some 2, some 3]⟩ "discrete" basicPrivacy false).getD
            i naDefaultInstance) ∧
      ((keptInstances
          [⟨"builtin", "1.1", [⟨["normal"], .single "discrete", "none", "1.0"⟩,
            ⟨["poisson"], .single "discrete", "none", "1.0"⟩], []⟩]
          (fun d _ _ => if d.names.contains "normal" then ⟨false, 10, [1]⟩
            else if d.names.contains "poisson" then ⟨false, 3, [2]⟩
            else ⟨true, 0, []⟩)
          ⟨"x", [some 1, some 2, some 3]⟩ "discrete" basicPrivacy false).getD
            i naDefaultInstance).is_unique = false ∧
      (∀ d ∈ keptInstances
          [⟨"builtin", "1.1", [⟨["normal"], .single "discrete", "none", "1.0"⟩,
            ⟨["poisson"], .single "discrete", "none", "1.0"⟩], []⟩]
          (fun d _ _ => if d.names.contains "normal" then ⟨false, 10, [1]⟩
            else if d.names.contains "poisson" then ⟨false, 3, [2]⟩
            else ⟨true, 0, []⟩)
          ⟨"x", [some 1, some 2, some 3]⟩ "discrete" basicPrivacy false,
        ((keptInstances
          [⟨"builtin", "1.1", [⟨["normal"], .single "discrete", "none", "1.0"⟩,
            ⟨["poisson"], .single "discrete", "none", "1.0"⟩], []⟩]
          (fun d _ _ => if d.names.contains "normal" then ⟨false, 10, [1]⟩
            else if d.names.contains "poisson" then ⟨false, 3, [2]⟩
            else ⟨true, 0, []⟩)
          ⟨"x", [some 1, some 2, some 3]⟩ "discrete" basicPrivacy false).getD
            i naDefaultInstance).ic ≤ d.ic) ∧
      (∀ j, j < i →
        ((keptInstances
          [⟨"builtin", "1.1", [⟨["normal"], .single "discrete", "none", "1.0"⟩,
            ⟨["poisson"], .single "discrete", "none", "1.0"⟩], []⟩]
          (fun d _ _ => if d.names.contains "normal" then ⟨false, 10, [1]⟩
            else if d.names.contains "poisson" then ⟨false, 3, [2]⟩
            else ⟨true, 0, []⟩)
          ⟨"x", [some 1, some 2, some 3]⟩ "discrete" basicPrivacy false).getD
            i naDefaultInstance).ic
          < ((keptInstances
            [⟨"builtin", "1.1", [⟨["normal"], .single "discrete", "none", "1.0"⟩,
              ⟨["poisson"], .single "discrete", "none", "1.0"⟩], []⟩]
            (fun d _ _ => if d.names.contains "normal" then ⟨false, 10, [1]⟩
              else if d.names.contains "poisson" then ⟨false, 3, [2]⟩
              else ⟨true, 0, []⟩)
            ⟨"x", [some 1, some 2, some 3]⟩ "discrete" basicPrivacy false).getD
              j naDefaultInstance).ic) :=
  (fit_auto_best_fit_selection
    [⟨"builtin", "1.1", [⟨["normal"], .single "discrete", "none", "1.0"⟩,
      ⟨["poisson"], .single "discrete", "none", "1.0"⟩], []⟩]
    (fun d _ _ => if d.names.contains "normal" then ⟨false, 10, [1]⟩
      else if d.names.contains "poisson" then ⟨false, 3, [2]⟩
      else ⟨true, 0, []⟩)
    ⟨"x", [some 1, some 2, some 3]⟩ "discrete" basicPrivacy (some false)
    (by decide) (by decide)).2 (by decide)

/-! ### Claim C3 -/

/-- C3: on a series with zero non-missing values, `fit` with `dist` omitted
returns the missing-data descriptor's default instance immediately, for every
provider pool, variable type, uniqueness preference and privacy level — in
particular it succeeds even when no candidates exist for that variable
type. -/
theorem fit_all_missing_returns_na
    (dps : List Provider) (oracle : FitOracle) (series : Series)
    (var_type : String) (privacy : Privacy) (unique : Option Bool)
    (h : series.dropNulls.length = 0) :
    fit dps oracle series var_type none privacy unique none
      = .ok naDefaultInstance := by
  show find_best_fit dps oracle series var_type unique privacy = _
  simp only [find_best_fit, h]
  simp

/-- Witness for C3: an all-missing series resolves to the missing-data
instance even with an empty provider list. -/
theorem fit_all_missing_returns_na_witness :
    fit [] (fun _ _ _ => naDefaultInstance) ⟨"x", [none, none]⟩ "continuous"
      none basicPrivacy (some true) none = .ok naDefaultInstance :=
  fit_all_missing_returns_na [] (fun _ _ _ => naDefaultInstance)
    ⟨"x", [none, none]⟩ "continuous" basicPrivacy (some true) (by decide)

/-! ### Claim C5 -/

/-- C5: an already fitted instance passed as the `dist` argument is returned
unchanged by `fit` — no re-fitting — for every series, privacy level,
uniqueness preference and `fit_kwargs`, including non-empty `fit_kwargs`. -/
theorem fit_instance_returned_unchanged
    (dps : List Provider) (oracle : FitOracle) (series : Series)
    (var_type : String) (privacy : Privacy) (unique : Option Bool)
    (fit_kwargs : Option FitKwargs) (d : DistInstance) :
    fit dps oracle series var_type (some (.byInstance d)) privacy unique fit_kwargs
      = .ok d := rfl

/-! ### Claim C6 -/

/-- C6: calling `fit` with `dist` omitted and a non-empty `fit_kwargs`
mapping always fails with the misuse error, for every series, variable type,
uniqueness preference and privacy level, and never reaches automatic
best-fit selection. -/
theorem fit_kwargs_without_dist_fails
    (dps : List Provider) (oracle : FitOracle) (series : Series)
    (var_type : String) (privacy : Privacy) (unique : Option Bool)
    (fit_kwargs : FitKwargs) (h : fit_kwargs ≠ []) :
    fit dps oracle series var_type none privacy unique (some fit_kwargs)
      = .error .misuseFitArgs := by
  have hlen : 0 < fit_kwargs.length := List.length_pos.mpr h
  simp only [fit, Option.getD_some]
  rw [if_pos hlen]

/-- Witness for C6: a single extra fit argument without a distribution is
rejected even on a series that would otherwise fit. -/
theorem fit_kwargs_without_dist_fails_witness :
    fit [] (fun _ _ _ => naDefaultInstance) ⟨"x", [some 1]⟩ "continuous"
      none basicPrivacy none (some [("x", 1)])
      = .error .misuseFitArgs :=
  fit_kwargs_without_dist_fails [] (fun _ _ _ => naDefaultInstance)
    ⟨"x", [some 1]⟩ "continuous" basicPrivacy none [("x", 1)] (by decide)

/-! ### Claim C9 -/

/-- C9: when a distribution is supplied explicitly (name, class or fitted
instance), the result of `fit` is identical for every value of the `unique`
argument: the uniqueness preference is ignored on the explicit-dist path and
never validated against the returned instance. -/
theorem fit_explicit_dist_ignores_unique
    (dps : List Provider) (oracle : FitOracle) (series : Series)
    (var_type : String) (d : DistArg) (privacy : Privacy)
    (u1 u2 : Option Bool) (fit_kwargs : Option FitKwargs) :
    fit dps oracle series var_type (some d) privacy u1 fit_kwargs
      = fit dps oracle series var_type (some d) privacy u2 fit_kwargs := rfl

/-! ### Claim C7 -/

/-- C7: `get_distributions` is the concatenation, in provider-list order, of
each provider's `get_dist_list` result; with a privacy object it keeps
exactly the descriptors whose privacy tag equals the privacy object's name
(so every returned descriptor carries that tag), and with no privacy object
it returns all gathered candidates with no deduplication. -/
theorem get_distributions_gathering
    (dps : List Provider) (var_type : Option String) (use_legacy : Bool)
    (pr : Privacy) :
    (get_distributions dps none var_type use_legacy
      = dps.flatMap (fun p => p.get_dist_list var_type use_legacy))
    ∧ (get_distributions dps (some pr) var_type use_legacy
      = (dps.flatMap (fun p => p.get_dist_list var_type use_legacy)).filter
        (fun d => d.privacy == pr.name))
    ∧ (∀ d ∈ get_distributions dps (some pr) var_type use_legacy,
        d.privacy = pr.name) :=
  ⟨get_distributions_no_privacy dps var_type use_legacy,
   get_distributions_privacy dps pr var_type use_legacy,
   fun _ hd => (mem_get_distributions_privacy hd).1⟩

/-- Witness for C7: a descriptor drawn from the privacy-filtered gathering of
a concrete provider pool carries the requested privacy tag. -/
theorem get_distributions_gathering_witness :
    (⟨["uniform"], VarTypeSpec.single "continuous", "none", "1.0"⟩ : DistClass).privacy
      = basicPrivacy.name :=
  (get_distributions_gathering
      [⟨"p1", "1.0", [⟨["uniform"], .single "continuous", "none", "1.0"⟩], []⟩]
      none false basicPrivacy).2.2
    ⟨["uniform"], .single "continuous", "none", "1.0"⟩ (by decide)

/-! ### Claim C8 -/

/-- C8: provider construction succeeds exactly when the name, version and
current-distributions list are all non-empty, and every successfully
constructed provider satisfies those three invariants. -/
theorem mkProvider_invariants (n v : String) (ds ls : List DistClass) :
    ((∃ p, mkProvider n v ds ls = .ok p)
      ↔ (n.length > 0 ∧ v.length > 0 ∧ ds.length > 0))
    ∧ (∀ p, mkProvider n v ds ls = .ok p →
        p.name.length > 0 ∧ p.version.length > 0 ∧ p.distributions.length > 0) := by
  constructor
  · constructor
    · rintro ⟨p, hp⟩
      simp only [mkProvider] at hp
      split_ifs at hp with h1 h2 h3
      exact ⟨h1, h2, h3⟩
    · rintro ⟨h1, h2, h3⟩
      refine ⟨⟨n, v, ds, ls⟩, ?_⟩
      simp [mkProvider, h1, h2, h3]
  · intro p hp
    simp only [mkProvider] at hp
    split_ifs at hp with h1 h2 h3
    cases hp
    exact ⟨h1, h2, h3⟩

/-- Witness for C8: constructing the builtin provider with a non-empty name,
version and distribution list succeeds. -/
theorem mkProvider_invariants_witness :
    ∃ p, mkProvider "builtin" "1.1"
      [⟨["uniform"], .single "continuous", "none", "1.0"⟩] [] = .ok p :=
  (mkProvider_invariants "builtin" "1.1"
      [⟨["uniform"], .single "continuous", "none", "1.0"⟩] []).1.mpr
    ⟨by decide, by decide, by decide⟩

/-! ### Claim C10 -/

/-- C10: `from_dict` resolves under the call's default privacy level: when
every registered candidate (current or legacy) matching the record's name
carries a privacy tag different from the default privacy's name, resolution
fails with the not-found error even if the record's name and version match a
registered descriptor. -/
theorem from_dict_default_privacy_only (dps : List Provider) (vd : VarDict)
    (h_na : matchesName naDistribution vd.implements = false)
    (h_cur : ∀ d ∈ get_distributions dps none (some vd.var_type) false,
      matchesName d vd.implements = true → d.privacy ≠ basicPrivacy.name)
    (h_leg : ∀ d ∈ get_distributions dps none (some vd.var_type) true,
      matchesName d vd.implements = true → d.privacy ≠ basicPrivacy.name) :
    from_dict dps vd = .error .notFound := by
  have hcur0 : currentMatches dps basicPrivacy (some vd.var_type) vd.implements
      = [] := by
    rw [currentMatches, List.filter_eq_nil_iff]
    intro d hd
    rcases mem_get_distributions_privacy hd with ⟨hdp, hdm⟩
    intro hm
    exact h_cur d hdm hm hdp
  have hleg0 : legacyMatches dps basicPrivacy (some vd.var_type) vd.implements
      = [] := by
    rw [legacyMatches, List.filter_eq_nil_iff]
    intro d hd
    rcases mem_get_distributions_privacy hd with ⟨hdp, hdm⟩
    intro hm
    exact h_leg d hdm hm hdp
  have h_noCur : ∀ d ∈ get_distributions dps (some basicPrivacy)
      (some vd.var_type) false,
      matchesName d vd.implements = true → d.version ≠ vd.version.getD "1.0" := by
    intro d hd hm
    exfalso
    have hmem : d ∈ currentMatches dps basicPrivacy (some vd.var_type)
        vd.implements := List.mem_filter.mpr ⟨hd, hm⟩
    rw [hcur0] at hmem
    cases hmem
  have h_noLeg : ∀ d ∈ legacyMatches dps basicPrivacy (some vd.var_type)
      vd.implements, d.version ≠ vd.version.getD "1.0" := by
    intro d hd
    rw [hleg0] at hd
    cases hd
  show find_distribution dps vd.implements basicPrivacy (some vd.var_type)
    (some (vd.version.getD "1.0")) = .error .notFound
  rw [find_distribution_some_reduce dps vd.implements (vd.version.getD "1.0")
    basicPrivacy (some vd.var_type) h_na h_noCur h_noLeg]
  rw [hcur0, hleg0]
  simp

/-- Witness for C10: a distribution registered only under privacy tag
`"high"` is not found by `from_dict` even though its name and version match
the record exactly. -/
theorem from_dict_default_privacy_only_witness :
    from_dict [⟨"p", "1.0",
        [⟨["mydist"], .single "continuous", "high", "1.0"⟩], []⟩]
      ⟨"continuous", "mydist", some "1.0"⟩ = .error .notFound :=
  from_dict_default_privacy_only
    [⟨"p", "1.0", [⟨["mydist"], .single "continuous", "high", "1.0"⟩], []⟩]
    ⟨"continuous", "mydist", some "1.0"⟩
    (by decide) (by decide) (by decide)

end Metasyn
